import Mathlib

/-!
Verification of the ChipTone synthesizer core (`src/main.py`).

The synthesizer pipeline (`Synth.generate_sample`, lines 56-108) is embedded
over `ℝ` (Python floats are modelled as exact reals), with all integer
conversions made explicit: Python `int(x)` and numpy `.astype(np.int16)`
truncate toward zero, numpy 16-bit integers wrap modulo 2^16, and
`np.round` rounds half to even.  The session recorder (`Recorder`,
lines 126-182) is embedded over `ℚ` (wall-clock readings passed in
explicitly); the durable JSON file written by `save_recording` is modelled
as the `RecordingData` value it would contain, with `none` meaning that no
file was written.
-/

namespace ChipTone

/-- numpy `np.round`: round half to even (banker's rounding), shared by the
bit-crush effect (over `ℝ`) and Python's `round(x, 2)` (over `ℚ`). -/
def np_round {α : Type} [LinearOrderedField α] [FloorRing α] [DecidableEq α]
    (x : α) : ℤ :=
  if Int.fract x = 1/2 then (if Even ⌊x⌋ then ⌊x⌋ else ⌊x⌋ + 1) else round x

/-- numpy int16 arithmetic is modular: reduce an integer into
`[-32768, 32767]` modulo 2^16. -/
def wrap16 (n : ℤ) : ℤ := (n + 32768) % 65536 - 32768

noncomputable section

/-- Python `int(x)` / numpy float-to-int casts: truncation toward zero. -/
def pyTrunc (x : ℝ) : ℤ := if 0 ≤ x then ⌊x⌋ else ⌈x⌉

/-- numpy `.astype(np.int16)` on a float: truncate toward zero, then wrap
into the 16-bit range. -/
def astype_int16 (x : ℝ) : ℤ := wrap16 (pyTrunc x)

/-- numpy `np.sign`: `-1` for negatives, `0` at `0`, `1` for positives. -/
def np_sign (x : ℝ) : ℝ := if x < 0 then -1 else if x = 0 then 0 else 1

/-- numpy `np.linspace(0, stop, num)`: `num` evenly spaced points from `0`
to `stop` inclusive; `[0]` when `num = 1`, `[]` when `num = 0`. -/
def linspace (stop : ℝ) (num : ℕ) : List ℝ :=
  if num ≤ 1 then List.replicate num 0
  else (List.range num).map fun (i : ℕ) => stop * (i : ℝ) / ((num : ℝ) - 1)

/-- SAMPLE_RATE = 44100 (line 13). -/
def SAMPLE_RATE : ℝ := 44100

/-- The four effect toggles of `Synth.__init__` (lines 46-51). -/
structure Effects where
  distortion : Bool
  delay : Bool
  low_pass : Bool
  bit_crush : Bool
deriving DecidableEq

/-- State of the `Synth` object (lines 37-54); the pygame `sound` handle is
external and omitted. -/
structure Synth where
  frequency : ℝ
  waveform : String
  volume : ℝ
  playing : Bool
  current_note : Option String
  wave_points : List ℤ
  effects : Effects
  delay_time : ℝ
  distortion_amount : ℝ
  bit_crush_factor : ℕ

/-- Defaults of `Synth.__init__`: 440 Hz sine, volume 0.5, only bit-crush
enabled, delay 0.3 s, drive 2.0, 4 bits. -/
def Synth.init : Synth where
  frequency := 440
  waveform := "sine"
  volume := 0.5
  playing := false
  current_note := none
  wave_points := []
  effects := { distortion := false, delay := false, low_pass := false, bit_crush := true }
  delay_time := 0.3
  distortion_amount := 2.0
  bit_crush_factor := 4

/-- The pointwise waveform formula of lines 61-70, as a function of one
time sample `ti`: an if/elif chain on the waveform string, unknown strings
falling back to sine. -/
def waveFun (waveform : String) (frequency : ℝ) (ti : ℝ) : ℝ :=
  if waveform = "sine" then Real.sin (2 * Real.pi * frequency * ti)
  else if waveform = "square" then np_sign (Real.sin (2 * Real.pi * frequency * ti))
  else if waveform = "sawtooth" then 2 * (ti * frequency - (⌊(0.5 : ℝ) + ti * frequency⌋ : ℤ))
  else if waveform = "triangle" then
    2 * |2 * (ti * frequency - (⌊ti * frequency + (0.5 : ℝ)⌋ : ℤ))| - 1
  else Real.sin (2 * Real.pi * frequency * ti)

/-- Base waveform generation (lines 60-70): the pointwise formula mapped
over the time grid. -/
def baseWave (waveform : String) (frequency : ℝ) (t : List ℝ) : List ℝ :=
  t.map (waveFun waveform frequency)

/-- The per-kind waveform formulas exactly as the spec states them, as
functions of the phase `phi = frequency * t_i`; used to compare the spec's
wording against `waveFun`. -/
def specWaveFormula (waveform : String) (phi : ℝ) : ℝ :=
  if waveform = "sine" then Real.sin (2 * Real.pi * phi)
  else if waveform = "square" then np_sign (Real.sin (2 * Real.pi * phi))
  else if waveform = "sawtooth" then 2 * (phi - (⌊(0.5 : ℝ) + phi⌋ : ℤ))
  else if waveform = "triangle" then 2 * |2 * (phi - (⌊phi + (0.5 : ℝ)⌋ : ℤ))| - 1
  else Real.sin (2 * Real.pi * phi)

/-- Distortion (lines 73-74): `tanh(wave * distortion_amount)`. -/
def applyDistortion (amount : ℝ) (w : List ℝ) : List ℝ :=
  w.map fun x => Real.tanh (x * amount)

/-- Bit crush (lines 76-78): `round(wave * levels) / levels` with
`levels = 2 ** bit_crush_factor`. -/
def applyBitCrush (bits : ℕ) (w : List ℝ) : List ℝ :=
  w.map fun x => ((np_round (x * 2 ^ bits) : ℤ) : ℝ) / 2 ^ bits

/-- The loop of lines 84-85: `filtered[i] = alpha*wave[i] + (1-alpha)*filtered[i-1]`. -/
def lowPassAux (alpha : ℝ) (prev : ℝ) : List ℝ → List ℝ
  | [] => []
  | x :: xs => (alpha * x + (1 - alpha) * prev) :: lowPassAux alpha (alpha * x + (1 - alpha) * prev) xs

/-- Low pass (lines 80-86): `filtered[0] = wave[0]`, then the sequential
recurrence with `alpha = 0.1`.  On an empty buffer the Python code raises
IndexError at `wave[0]`; `generate_sample` models that failure explicitly,
so the `[]` branch here is unreachable from it. -/
def applyLowPass (w : List ℝ) : List ℝ :=
  match w with
  | [] => []
  | x :: xs => x :: lowPassAux 0.1 x xs

/-- Sample count of line 58: `int(SAMPLE_RATE * length)` (truncation toward
zero, not rounding). -/
def numSamples (length : ℝ) : ℤ := pyTrunc (SAMPLE_RATE * length)

/-- The `delay_samples` count of line 102: `int(SAMPLE_RATE * delay_time)`. -/
def delaySamples (s : Synth) : ℤ := pyTrunc (SAMPLE_RATE * s.delay_time)

/-- The raw waveform `wave` right after lines 58-70: the base waveform on
the `np.linspace(0, length, int(SAMPLE_RATE*length))` grid. -/
def rawWave (s : Synth) (length : ℝ) : List ℝ :=
  baseWave s.waveform s.frequency (linspace length (numSamples length).toNat)

/-- State of `wave` after the optional distortion stage (lines 73-74). -/
def afterDistortion (s : Synth) (length : ℝ) : List ℝ :=
  if s.effects.distortion = true then applyDistortion s.distortion_amount (rawWave s length)
  else rawWave s length

/-- State of `wave` after the optional bit-crush stage (lines 76-78). -/
def afterBitCrush (s : Synth) (length : ℝ) : List ℝ :=
  if s.effects.bit_crush = true then applyBitCrush s.bit_crush_factor (afterDistortion s length)
  else afterDistortion s length

/-- State of `wave` after the optional low-pass stage and the volume scaling
(lines 80-89): the final mono float signal. -/
def monoFloat (s : Synth) (length : ℝ) : List ℝ :=
  (if s.effects.low_pass = true then applyLowPass (afterBitCrush s length)
   else afterBitCrush s length).map fun x => x * s.volume

/-- The preview `self.wave_points` (line 92): `(wave[:300] * 32767).astype(np.int16)`. -/
def previewPoints (s : Synth) (length : ℝ) : List ℤ :=
  ((monoFloat s length).take 300).map fun x => astype_int16 (x * 32767)

/-- The buffer `wave_16bit` (line 95): `(wave * 32767).astype(np.int16)`. -/
def wave16 (s : Synth) (length : ℝ) : List ℤ :=
  (monoFloat s length).map fun x => astype_int16 (x * 32767)

/-- The buffer `stereo_wave` (line 98): each mono sample duplicated into both
channels. -/
def stereo16 (s : Synth) (length : ℝ) : List (ℤ × ℤ) :=
  (wave16 s length).map fun x => (x, x)

/-- numpy `np.roll(a, D, axis=0)`: rotate so that element `i` of the result
is `a[(i - D) mod N]`; expressed through `List.rotate` (a left rotation). -/
def np_roll (D : ℤ) (l : List (ℤ × ℤ)) : List (ℤ × ℤ) :=
  l.rotate ((((l.length : ℤ) - D % (l.length : ℤ)) % (l.length : ℤ)).toNat)

/-- The zeroing `delayed[:delay_samples] = 0` (line 105), with Python slice semantics
for the stop index (clamped; counted from the end when negative). -/
def zeroLeading (D : ℤ) (l : List (ℤ × ℤ)) : List (ℤ × ℤ) :=
  List.replicate (if 0 ≤ D then min D.toNat l.length else ((l.length : ℤ) + D).toNat) (0, 0) ++
    l.drop (if 0 ≤ D then min D.toNat l.length else ((l.length : ℤ) + D).toNat)

/-- The scaling `(delayed * 0.5).astype(np.int16)` (line 106): scale each channel by
0.5 in float, truncate toward zero back to int16. -/
def scaleHalf (l : List (ℤ × ℤ)) : List (ℤ × ℤ) :=
  l.map fun p => (astype_int16 ((p.1 : ℝ) * 0.5), astype_int16 ((p.2 : ℝ) * 0.5))

/-- The sum `stereo_wave + ...` (line 106): numpy elementwise int16 addition, which
wraps modulo 2^16. -/
def addWrap (a b : List (ℤ × ℤ)) : List (ℤ × ℤ) :=
  List.zipWith (fun p q => (wrap16 (p.1 + q.1), wrap16 (p.2 + q.2))) a b

/-- The delayed copy built on lines 104-105: `np.roll` by `delay_samples`
frames followed by zeroing the leading slice. -/
def delayedCopy (s : Synth) (length : ℝ) : List (ℤ × ℤ) :=
  zeroLeading (delaySamples s) (np_roll (delaySamples s) (stereo16 s length))

/-- Lines 100-106: when the delay effect is on and the buffer is longer
than `delay_samples`, mix the half-gain delayed copy into the buffer. -/
def applyDelay (s : Synth) (length : ℝ) : List (ℤ × ℤ) :=
  if s.effects.delay = true ∧ delaySamples s < ((stereo16 s length).length : ℤ) then
    addWrap (stereo16 s length) (scaleHalf (delayedCopy s length))
  else stereo16 s length

/-- The ways `generate_sample` can raise: `np.linspace` rejects a negative
sample count (ValueError), and the low-pass stage indexes `wave[0]` on an
empty buffer (IndexError). -/
inductive PyError
  | valueError
  | indexError
deriving DecidableEq

/-- Method `Synth.generate_sample` (lines 56-108): returns the updated synth
(with `self.wave_points` overwritten, line 92) and the final stereo
buffer.  There is no parameter validation anywhere in the source. -/
def generate_sample (s : Synth) (length : ℝ) : Except PyError (Synth × List (ℤ × ℤ)) :=
  if numSamples length < 0 then .error .valueError
  else if s.effects.low_pass = true ∧ (numSamples length).toNat = 0 then .error .indexError
  else .ok ({ s with wave_points := previewPoints s length }, applyDelay s length)

/-- Method `Synth.play_note` (lines 110-117): set frequency/waveform/current note,
render, mark as playing.  The pygame playback call is external. -/
def play_note (s : Synth) (freq : ℝ) (note_name : String) (waveform : String)
    (duration : ℝ) : Except PyError Synth :=
  let s1 := { s with frequency := freq, waveform := waveform, current_note := some note_name }
  match generate_sample s1 duration with
  | .error e => .error e
  | .ok p => .ok { p.1 with playing := true }

/-- Whether an `Except` result is a success. -/
def isOkE (e : Except PyError (Synth × List (ℤ × ℤ))) : Bool :=
  match e with
  | .ok _ => true
  | .error _ => false

/-- A concrete state for evaluating the delay stage: square wave at
3675 Hz, unit volume, only the delay effect on, delay time of exactly one
sample. -/
def sqDelaySynth : Synth :=
  { Synth.init with
    frequency := 3675
    waveform := "square"
    volume := 1
    effects := { distortion := false, delay := true, low_pass := false, bit_crush := false }
    delay_time := 1 / 44100 }

/-- The same state at a very small volume, so the 16-bit samples are 0/1
and the half-gain delayed copy truncates to zero. -/
def sqDelaySynthQuiet : Synth :=
  { sqDelaySynth with volume := 1 / 32767 }

/-- A concrete sawtooth state: 11025 Hz, defaults otherwise. -/
def sawSynth : Synth :=
  { Synth.init with waveform := "sawtooth", frequency := 11025 }

/-- A concrete state with non-positive frequency, defaults otherwise. -/
def negSynth : Synth :=
  { Synth.init with frequency := -440 }

end

/-- A recorded note event (lines 153-158): offset (rounded to 2 decimals),
note label, frequency, waveform. -/
structure RecordedNote where
  time : ℚ
  note : String
  freq : ℚ
  wave : String
deriving DecidableEq

/-- State of the `Recorder` object (lines 126-132); the recordings folder
is kept as plain data, directory creation being external I/O. -/
structure Recorder where
  recording : Bool
  record_start_time : ℚ
  recorded_notes : List RecordedNote
  recordings_folder : String
deriving DecidableEq

/-- Method `Recorder.__init__` (lines 127-132). -/
def Recorder.init : Recorder where
  recording := false
  record_start_time := 0
  recorded_notes := []
  recordings_folder := "recordings"

/-- Method `start_recording` (lines 139-143): set the flag, capture the clock,
clear the note list. -/
def start_recording (r : Recorder) (now : ℚ) : Recorder :=
  { r with recording := true, record_start_time := now, recorded_notes := [] }

/-- Method `stop_recording` (lines 145-147). -/
def stop_recording (r : Recorder) : Recorder :=
  { r with recording := false }

/-- Python `round(x, 2)`: round half to even at two decimal places. -/
def round2 (x : ℚ) : ℚ := (np_round (x * 100) : ℤ) / 100

/-- Method `add_note` (lines 149-158): append a timestamped event while recording,
do nothing otherwise. -/
def add_note (r : Recorder) (now : ℚ) (note_name : String) (frequency : ℚ)
    (waveform : String) : Recorder :=
  if r.recording then
    { r with recorded_notes := r.recorded_notes ++
        [{ time := round2 (now - r.record_start_time), note := note_name,
           freq := frequency, wave := waveform }] }
  else r

/-- The JSON document written by `save_recording` (lines 169-174). -/
structure RecordingData where
  timestamp : String
  duration : ℚ
  total_notes : ℕ
  notes : List RecordedNote
deriving DecidableEq

/-- Method `save_recording` (lines 160-182): with no recorded notes, return
failure without writing; otherwise write the session document.  The first
component is the written file content (`none` = nothing written), the
second the recorder state after the call (the method never mutates it). -/
def save_recording (r : Recorder) (now : ℚ) (ts : String) :
    Option RecordingData × Recorder :=
  if r.recorded_notes.isEmpty then (none, r)
  else (some { timestamp := ts, duration := round2 (now - r.record_start_time),
               total_notes := r.recorded_notes.length, notes := r.recorded_notes }, r)

/-- One `add_note` call per element: (clock reading, note, frequency,
waveform), folded in call order. -/
def runCalls (r : Recorder) (calls : List (ℚ × String × ℚ × String)) : Recorder :=
  calls.foldl (fun st c => add_note st c.1 c.2.1 c.2.2.1 c.2.2.2) r

/-! Basic facts about the integer conversions. -/

theorem wrap16_lb (n : ℤ) : -32768 ≤ wrap16 n := by
  unfold wrap16
  have h := Int.emod_nonneg (n + 32768) (b := 65536) (by norm_num)
  omega

theorem wrap16_ub (n : ℤ) : wrap16 n ≤ 32767 := by
  unfold wrap16
  have h := Int.emod_lt_of_pos (n + 32768) (b := 65536) (by norm_num)
  omega

theorem wrap16_eq_self (n : ℤ) (h1 : -32768 ≤ n) (h2 : n ≤ 32767) : wrap16 n = n := by
  unfold wrap16
  rw [Int.emod_eq_of_lt (by omega) (by omega)]
  omega

theorem pyTrunc_eval (x : ℝ) (n : ℤ) (h0 : 0 ≤ x) (h1 : (n : ℝ) ≤ x) (h2 : x < n + 1) :
    pyTrunc x = n := by
  unfold pyTrunc
  rw [if_pos h0]
  exact Int.floor_eq_iff.mpr ⟨h1, h2⟩

theorem astype_int16_zero : astype_int16 0 = 0 := by
  have h : pyTrunc 0 = 0 := pyTrunc_eval 0 0 le_rfl (by norm_num) (by norm_num)
  unfold astype_int16
  rw [h]
  exact wrap16_eq_self 0 (by norm_num) (by norm_num)

theorem astype_int16_bounds (x : ℝ) :
    -32768 ≤ astype_int16 x ∧ astype_int16 x ≤ 32767 :=
  ⟨wrap16_lb _, wrap16_ub _⟩

theorem np_sign_zero : np_sign 0 = 0 := by
  unfold np_sign
  rw [if_neg (lt_irrefl 0), if_pos rfl]

theorem np_sign_pos (x : ℝ) (h : 0 < x) : np_sign x = 1 := by
  unfold np_sign
  rw [if_neg (not_lt.mpr h.le), if_neg h.ne']

/-! A small `List.getD` API used to state index-level properties. -/

theorem getD_of_map {α β : Type} (f : α → β) (l : List α) (i : ℕ) (h : i < l.length)
    (d : α) (e : β) : (l.map f).getD i e = f (l.getD i d) := by
  rw [List.getD_eq_getElem _ _ (by simpa using h), List.getD_eq_getElem _ _ h,
    List.getElem_map]

theorem getD_of_append_left {α : Type} (a b : List α) (i : ℕ) (h : i < a.length) (d : α) :
    (a ++ b).getD i d = a.getD i d := by
  rw [List.getD_eq_getElem _ _ (by simp; omega), List.getD_eq_getElem _ _ h]
  exact List.getElem_append_left h

theorem getD_of_append_right {α : Type} (a b : List α) (i : ℕ) (h : a.length ≤ i)
    (h2 : i < a.length + b.length) (d : α) :
    (a ++ b).getD i d = b.getD (i - a.length) d := by
  rw [List.getD_eq_getElem _ _ (by simp; omega), List.getD_eq_getElem _ _ (by omega)]
  exact List.getElem_append_right h

theorem getD_of_replicate {α : Type} (k : ℕ) (x : α) (i : ℕ) (h : i < k) (d : α) :
    (List.replicate k x).getD i d = x := by
  rw [List.getD_eq_getElem _ _ (by simpa using h)]
  exact List.getElem_replicate x (by simpa using h)

theorem getD_of_take {α : Type} (l : List α) (n i : ℕ) (h : i < n) (h2 : i < l.length)
    (d : α) : (l.take n).getD i d = l.getD i d := by
  rw [List.getD_eq_getElem _ _ (by simp; omega), List.getD_eq_getElem _ _ h2]
  exact List.getElem_take l

theorem getD_of_zipWith {α : Type} (f : α → α → α) (a b : List α) (i : ℕ)
    (ha : i < a.length) (hb : i < b.length) (d : α) :
    (List.zipWith f a b).getD i d = f (a.getD i d) (b.getD i d) := by
  rw [List.getD_eq_getElem _ _ (by simp; omega), List.getD_eq_getElem _ _ ha,
    List.getD_eq_getElem _ _ hb]
  exact List.getElem_zipWith

theorem getD_mem_prop {α : Type} (l : List α) (P : α → Prop) (h : ∀ x ∈ l, P x)
    (i : ℕ) (hi : i < l.length) (d : α) : P (l.getD i d) := by
  rw [List.getD_eq_getElem _ _ hi]
  exact h _ (List.getElem_mem hi)

theorem mem_of_zipWith {α : Type} (f : α → α → α) (a b : List α) (c : α)
    (h : c ∈ List.zipWith f a b) : ∃ x y, c = f x y := by
  induction a generalizing b with
  | nil => simp at h
  | cons x xs ih =>
    cases b with
    | nil => simp at h
    | cons y ys =>
      simp only [List.zipWith_cons_cons, List.mem_cons] at h
      rcases h with h | h
      · exact ⟨x, y, h⟩
      · exact ih ys h

/-! Length preservation through the pipeline. -/

theorem linspace_length (stop : ℝ) (num : ℕ) : (linspace stop num).length = num := by
  unfold linspace
  split
  · exact List.length_replicate num 0
  · rw [List.length_map, List.length_range]

theorem lowPassAux_length (a prev : ℝ) (xs : List ℝ) :
    (lowPassAux a prev xs).length = xs.length := by
  induction xs generalizing prev with
  | nil => rfl
  | cons x xs ih => simp [lowPassAux, ih]

theorem applyLowPass_length (w : List ℝ) : (applyLowPass w).length = w.length := by
  cases w with
  | nil => rfl
  | cons x xs => simp [applyLowPass, lowPassAux_length]

theorem monoFloat_length (s : Synth) (L : ℝ) :
    (monoFloat s L).length = (numSamples L).toNat := by
  unfold monoFloat afterBitCrush afterDistortion rawWave baseWave applyBitCrush
    applyDistortion
  split <;> split <;> split <;>
    simp [applyLowPass_length, linspace_length]

theorem wave16_length (s : Synth) (L : ℝ) :
    (wave16 s L).length = (numSamples L).toNat := by
  unfold wave16
  simp [monoFloat_length]

theorem stereo16_length (s : Synth) (L : ℝ) :
    (stereo16 s L).length = (numSamples L).toNat := by
  unfold stereo16
  simp [wave16_length]

theorem np_roll_length (D : ℤ) (l : List (ℤ × ℤ)) : (np_roll D l).length = l.length := by
  unfold np_roll
  exact List.length_rotate l _

theorem zeroLeading_length (D : ℤ) (l : List (ℤ × ℤ)) :
    (zeroLeading D l).length = l.length := by
  unfold zeroLeading
  split
  · simp
  · simp
    omega

theorem delayedCopy_length (s : Synth) (L : ℝ) :
    (delayedCopy s L).length = (stereo16 s L).length := by
  unfold delayedCopy
  rw [zeroLeading_length, np_roll_length]

theorem scaleHalf_length (l : List (ℤ × ℤ)) : (scaleHalf l).length = l.length := by
  unfold scaleHalf
  simp

theorem applyDelay_length (s : Synth) (L : ℝ) :
    (applyDelay s L).length = (numSamples L).toNat := by
  unfold applyDelay
  split
  · unfold addWrap
    rw [List.length_zipWith, scaleHalf_length, delayedCopy_length, min_self,
      stereo16_length]
  · exact stereo16_length s L

/-! Success and failure of `generate_sample`. -/

theorem generate_sample_ok (s : Synth) (L : ℝ) (h0 : ¬ numSamples L < 0)
    (h1 : ¬ (s.effects.low_pass = true ∧ (numSamples L).toNat = 0)) :
    generate_sample s L =
      .ok ({ s with wave_points := previewPoints s L }, applyDelay s L) := by
  unfold generate_sample
  rw [if_neg h0, if_neg h1]

theorem generate_sample_ok_inv (s : Synth) (L : ℝ) (out : Synth × List (ℤ × ℤ))
    (h : generate_sample s L = .ok out) :
    out = ({ s with wave_points := previewPoints s L }, applyDelay s L) := by
  unfold generate_sample at h
  split at h
  · exact absurd h (by simp)
  · split at h
    · exact absurd h (by simp)
    · exact (Except.ok.injEq _ _ ▸ h).symm

theorem isOkE_generate_sample (s : Synth) (L : ℝ) :
    isOkE (generate_sample s L) = true ↔
      0 ≤ numSamples L ∧ ¬ (s.effects.low_pass = true ∧ (numSamples L).toNat = 0) := by
  by_cases h0 : numSamples L < 0
  · rw [generate_sample, if_pos h0]
    constructor
    · intro hok
      simp [isOkE] at hok
    · intro hc
      exact absurd hc.1 (by omega)
  · by_cases h1 : s.effects.low_pass = true ∧ (numSamples L).toNat = 0
    · rw [generate_sample, if_neg h0, if_pos h1]
      constructor
      · intro hok
        simp [isOkE] at hok
      · intro hc
        exact absurd h1 hc.2
    · rw [generate_sample, if_neg h0, if_neg h1]
      constructor
      · intro _
        exact ⟨not_lt.mp h0, h1⟩
      · intro _
        rfl

/-! The delay stage: shape of the delayed copy, and wrap-around facts. -/

theorem np_roll_eq_of_lt (D : ℕ) (l : List (ℤ × ℤ)) (h : D < l.length) :
    np_roll (D : ℤ) l = l.drop (l.length - D) ++ l.take (l.length - D) := by
  unfold np_roll
  rcases Nat.eq_zero_or_pos D with h0 | hpos
  · subst h0
    rw [Int.natCast_zero, Int.zero_emod, sub_zero, Int.emod_self]
    simp
  · have e1 : (D : ℤ) % (l.length : ℤ) = D :=
      Int.emod_eq_of_lt (by omega) (by exact_mod_cast h)
    have e2 : ((l.length : ℤ) - D) % (l.length : ℤ) = (l.length : ℤ) - D :=
      Int.emod_eq_of_lt (by omega) (by omega)
    rw [e1, e2, show (((l.length : ℤ) - D)).toNat = l.length - D by omega]
    exact List.rotate_eq_drop_append_take (Nat.sub_le _ _)

theorem delayedCopy_eq (s : Synth) (L : ℝ) (h0 : 0 ≤ delaySamples s)
    (hlt : delaySamples s < ((stereo16 s L).length : ℤ)) :
    delayedCopy s L =
      List.replicate (delaySamples s).toNat (0, 0) ++
        (stereo16 s L).take ((stereo16 s L).length - (delaySamples s).toNat) := by
  have hDZ : ((delaySamples s).toNat : ℤ) = delaySamples s := Int.toNat_of_nonneg h0
  have hDN : (delaySamples s).toNat < (stereo16 s L).length := by omega
  unfold delayedCopy
  rw [← hDZ, np_roll_eq_of_lt _ _ hDN]
  unfold zeroLeading
  rw [if_pos (by omega : (0 : ℤ) ≤ (((delaySamples s).toNat : ℕ) : ℤ))]
  have hlen : ((stereo16 s L).drop ((stereo16 s L).length - (delaySamples s).toNat) ++
      (stereo16 s L).take ((stereo16 s L).length - (delaySamples s).toNat)).length =
      (stereo16 s L).length := by
    rw [List.length_append, List.length_drop, List.length_take]
    omega
  rw [Int.toNat_natCast, hlen, min_eq_left (le_of_lt hDN)]
  congr 1
  have hdlen : ((stereo16 s L).drop ((stereo16 s L).length - (delaySamples s).toNat)).length =
      (delaySamples s).toNat := by
    rw [List.length_drop]
    omega
  have hdl := List.drop_left ((stereo16 s L).drop ((stereo16 s L).length - (delaySamples s).toNat))
    ((stereo16 s L).take ((stereo16 s L).length - (delaySamples s).toNat))
  rw [hdlen] at hdl
  exact hdl

theorem applyDelay_getD (s : Synth) (L : ℝ) (hd : s.effects.delay = true)
    (hlt : delaySamples s < ((stereo16 s L).length : ℤ)) (i : ℕ)
    (hi : i < (stereo16 s L).length) :
    (applyDelay s L).getD i (0, 0) =
      (wrap16 (((stereo16 s L).getD i (0, 0)).1 +
         ((scaleHalf (delayedCopy s L)).getD i (0, 0)).1),
       wrap16 (((stereo16 s L).getD i (0, 0)).2 +
         ((scaleHalf (delayedCopy s L)).getD i (0, 0)).2)) := by
  unfold applyDelay
  rw [if_pos ⟨hd, hlt⟩]
  unfold addWrap
  rw [getD_of_zipWith _ _ _ _ hi (by rw [scaleHalf_length, delayedCopy_length]; exact hi)]

theorem scaleHalf_getD (l : List (ℤ × ℤ)) (i : ℕ) (hi : i < l.length) :
    (scaleHalf l).getD i (0, 0) =
      (astype_int16 (((l.getD i (0, 0)).1 : ℝ) * 0.5),
       astype_int16 (((l.getD i (0, 0)).2 : ℝ) * 0.5)) := by
  unfold scaleHalf
  rw [getD_of_map _ _ _ hi (0, 0)]

theorem stereo16_bounds (s : Synth) (L : ℝ) :
    ∀ p ∈ stereo16 s L, (-32768 ≤ p.1 ∧ p.1 ≤ 32767) ∧ (-32768 ≤ p.2 ∧ p.2 ≤ 32767) := by
  intro p hp
  unfold stereo16 wave16 at hp
  rw [List.mem_map] at hp
  obtain ⟨x, hx, rfl⟩ := hp
  rw [List.mem_map] at hx
  obtain ⟨y, hy, rfl⟩ := hx
  exact ⟨astype_int16_bounds _, astype_int16_bounds _⟩

theorem applyDelay_bounds (s : Synth) (L : ℝ) :
    ∀ p ∈ applyDelay s L, (-32768 ≤ p.1 ∧ p.1 ≤ 32767) ∧ (-32768 ≤ p.2 ∧ p.2 ≤ 32767) := by
  intro p hp
  unfold applyDelay at hp
  split at hp
  · unfold addWrap at hp
    obtain ⟨x, y, rfl⟩ := mem_of_zipWith _ _ _ _ hp
    exact ⟨⟨wrap16_lb _, wrap16_ub _⟩, wrap16_lb _, wrap16_ub _⟩
  · exact stereo16_bounds s L p hp

theorem delayedCopy_getD_lt (s : Synth) (L : ℝ) (h0 : 0 ≤ delaySamples s)
    (hlt : delaySamples s < ((stereo16 s L).length : ℤ)) (i : ℕ)
    (hi : i < (delaySamples s).toNat) :
    (delayedCopy s L).getD i (0, 0) = (0, 0) := by
  rw [delayedCopy_eq s L h0 hlt,
    getD_of_append_left _ _ _ (by simpa using hi),
    getD_of_replicate _ _ _ hi]

theorem delayedCopy_getD_ge (s : Synth) (L : ℝ) (h0 : 0 ≤ delaySamples s)
    (hlt : delaySamples s < ((stereo16 s L).length : ℤ)) (i : ℕ)
    (hge : (delaySamples s).toNat ≤ i) (hi : i < (stereo16 s L).length) :
    (delayedCopy s L).getD i (0, 0) =
      (stereo16 s L).getD (i - (delaySamples s).toNat) (0, 0) := by
  have hDN : (delaySamples s).toNat < (stereo16 s L).length := by omega
  rw [delayedCopy_eq s L h0 hlt,
    getD_of_append_right _ _ _ (by simpa using hge) (by simp; omega),
    List.length_replicate,
    getD_of_take _ _ _ (by omega) (by omega)]

/-! The low-pass recurrence, index by index. -/

theorem lowPassAux_getD_succ (a : ℝ) (xs : List ℝ) (prev : ℝ) (i : ℕ)
    (h : i + 1 < xs.length) :
    (lowPassAux a prev xs).getD (i + 1) 0 =
      a * xs.getD (i + 1) 0 + (1 - a) * (lowPassAux a prev xs).getD i 0 := by
  induction xs generalizing prev i with
  | nil => simp at h
  | cons x xs ih =>
    cases i with
    | zero =>
      cases xs with
      | nil => simp at h
      | cons z zs =>
        simp [lowPassAux, List.getD_cons_succ, List.getD_cons_zero]
    | succ j =>
      have hh : j + 1 < xs.length := by simpa using h
      simp only [lowPassAux, List.getD_cons_succ]
      exact ih _ j hh

theorem applyLowPass_getD_zero (w : List ℝ) (hw : w ≠ []) :
    (applyLowPass w).getD 0 0 = w.getD 0 0 := by
  cases w with
  | nil => exact absurd rfl hw
  | cons x xs => rfl

theorem applyLowPass_getD_rec (w : List ℝ) (i : ℕ) (h1 : 1 ≤ i) (h2 : i < w.length) :
    (applyLowPass w).getD i 0 =
      0.1 * w.getD i 0 + (1 - 0.1) * (applyLowPass w).getD (i - 1) 0 := by
  cases w with
  | nil => simp at h2
  | cons x xs =>
    obtain ⟨j, rfl⟩ : ∃ j, i = j + 1 := ⟨i - 1, by omega⟩
    simp only [Nat.add_sub_cancel]
    cases j with
    | zero =>
      cases xs with
      | nil => simp at h2
      | cons z zs =>
        simp [applyLowPass, lowPassAux, List.getD_cons_succ, List.getD_cons_zero]
    | succ k =>
      simp only [applyLowPass, List.getD_cons_succ]
      exact lowPassAux_getD_succ 0.1 xs x k (by simpa using h2)

/-! Monotonicity of round-half-to-even, hence of two-decimal rounding. -/

theorem np_round_le_floor_half (z : ℚ) : np_round z ≤ ⌊z + 1/2⌋ := by
  unfold np_round
  split_ifs with ht he
  · have hz : z = (⌊z⌋ : ℚ) + 1/2 := by
      unfold Int.fract at ht
      linarith
    have hfl : ⌊z + 1/2⌋ = ⌊z⌋ + 1 := by
      rw [show z + 1/2 = ((⌊z⌋ + 1 : ℤ) : ℚ) by push_cast; linarith, Int.floor_intCast]
    omega
  · have hz : z = (⌊z⌋ : ℚ) + 1/2 := by
      unfold Int.fract at ht
      linarith
    have hfl : ⌊z + 1/2⌋ = ⌊z⌋ + 1 := by
      rw [show z + 1/2 = ((⌊z⌋ + 1 : ℤ) : ℚ) by push_cast; linarith, Int.floor_intCast]
    omega
  · exact le_of_eq (round_eq z)

theorem floor_le_np_round (z : ℚ) : ⌊z⌋ ≤ np_round z := by
  unfold np_round
  split_ifs with ht he
  · exact le_refl _
  · omega
  · rw [round_eq]
    exact Int.floor_le_floor (by linarith)

theorem np_round_mono (x y : ℚ) (h : x ≤ y) : np_round x ≤ np_round y := by
  by_cases fy : Int.fract y = 1/2
  · by_cases fx : Int.fract x = 1/2
    · have hx : x = (⌊x⌋ : ℚ) + 1/2 := by
        unfold Int.fract at fx
        linarith
      have hy : y = (⌊y⌋ : ℚ) + 1/2 := by
        unfold Int.fract at fy
        linarith
      have hff : ⌊x⌋ ≤ ⌊y⌋ := Int.floor_le_floor h
      rcases eq_or_lt_of_le hff with heq | hltf
      · have hxy : x = y := by
          rw [hx, hy, heq]
        rw [hxy]
      · have b1 := np_round_le_floor_half x
        have b2 := floor_le_np_round y
        have hfl : ⌊x + 1/2⌋ = ⌊x⌋ + 1 := by
          rw [show x + 1/2 = ((⌊x⌋ + 1 : ℤ) : ℚ) by push_cast; linarith, Int.floor_intCast]
        omega
    · have hy : y = (⌊y⌋ : ℚ) + 1/2 := by
        unfold Int.fract at fy
        linarith
      have b2 := floor_le_np_round y
      have hx1 : np_round x = ⌊x + 1/2⌋ := by
        unfold np_round
        rw [if_neg fx, round_eq]
      have hle : ⌊x + 1/2⌋ ≤ ⌊y⌋ := by
        by_contra hcon
        push_neg at hcon
        have hc2 : ((⌊y⌋ + 1 : ℤ) : ℚ) ≤ (⌊x + 1/2⌋ : ℚ) := by
          exact_mod_cast hcon
        have hc3 := Int.floor_le (x + 1/2)
        have hxy : y ≤ x := by
          rw [hy]
          push_cast at hc2
          linarith
        have hxeq : x = y := le_antisymm h hxy
        rw [hxeq] at fx
        exact fx fy
      omega
  · have hy1 : np_round y = ⌊y + 1/2⌋ := by
      unfold np_round
      rw [if_neg fy, round_eq]
    have b1 := np_round_le_floor_half x
    have hle : ⌊x + 1/2⌋ ≤ ⌊y + 1/2⌋ := Int.floor_le_floor (by linarith)
    omega

theorem round2_mono (x y : ℚ) (h : x ≤ y) : round2 x ≤ round2 y := by
  unfold round2
  have h1 : np_round (x * 100) ≤ np_round (y * 100) :=
    np_round_mono _ _ (by linarith)
  exact (div_le_div_iff_of_pos_right (by norm_num)).mpr (by exact_mod_cast h1)

/-! Recorder: folding a list of `add_note` calls. -/

theorem runCalls_notes (calls : List (ℚ × String × ℚ × String)) (st : Recorder)
    (h : st.recording = true) :
    (runCalls st calls).recorded_notes =
      st.recorded_notes ++ calls.map (fun c =>
        { time := round2 (c.1 - st.record_start_time), note := c.2.1,
          freq := c.2.2.1, wave := c.2.2.2 : RecordedNote }) := by
  induction calls generalizing st with
  | nil => simp [runCalls]
  | cons c cs ih =>
    have hadd : add_note st c.1 c.2.1 c.2.2.1 c.2.2.2 =
        { st with recorded_notes := st.recorded_notes ++
            [{ time := round2 (c.1 - st.record_start_time), note := c.2.1,
               freq := c.2.2.1, wave := c.2.2.2 }] } := by
      unfold add_note
      rw [if_pos h]
    have step := ih { st with recorded_notes := st.recorded_notes ++
        [{ time := round2 (c.1 - st.record_start_time), note := c.2.1,
           freq := c.2.2.1, wave := c.2.2.2 }] } h
    rw [show runCalls st (c :: cs) = runCalls (add_note st c.1 c.2.1 c.2.2.1 c.2.2.2) cs
      from rfl, hadd, step]
    simp [List.append_assoc]

/-! Evaluation lemmas for the concrete states used as witnesses and
counterexamples. -/

theorem pyTrunc_intCast (n : ℤ) : pyTrunc ((n : ℤ) : ℝ) = n := by
  unfold pyTrunc
  split
  · exact Int.floor_intCast n
  · exact Int.ceil_intCast n

theorem np_round_zero {α : Type} [LinearOrderedField α] [FloorRing α] [DecidableEq α] :
    np_round (0 : α) = 0 := by
  unfold np_round
  rw [Int.fract_zero, if_neg (by norm_num)]
  exact round_zero

theorem previewPoints_eq_take (s : Synth) (L : ℝ) :
    previewPoints s L = (wave16 s L).take 300 := by
  unfold previewPoints wave16
  exact List.map_take _ _ _

theorem numSamples_3f : numSamples ((3 : ℝ)/44100) = 3 := by
  unfold numSamples SAMPLE_RATE
  rw [show (44100 : ℝ) * (3/44100) = ((3 : ℤ) : ℝ) by norm_num, pyTrunc_intCast]

theorem numSamples_2f : numSamples ((2 : ℝ)/44100) = 2 := by
  unfold numSamples SAMPLE_RATE
  rw [show (44100 : ℝ) * (2/44100) = ((2 : ℤ) : ℝ) by norm_num, pyTrunc_intCast]

theorem numSamples_halfframe : numSamples ((3 : ℝ)/88200) = 1 := by
  unfold numSamples SAMPLE_RATE
  exact pyTrunc_eval _ 1 (by norm_num) (by norm_num) (by norm_num)

theorem numSamples_one : numSamples (1 : ℝ) = 44100 := by
  unfold numSamples SAMPLE_RATE
  rw [show (44100 : ℝ) * 1 = ((44100 : ℤ) : ℝ) by norm_num, pyTrunc_intCast]

theorem sq_elem_pos (f t : ℝ) (h : 0 < Real.sin (2 * Real.pi * f * t)) :
    waveFun "square" f t = 1 := by
  unfold waveFun
  rw [if_neg (by decide), if_pos rfl]
  exact np_sign_pos _ h

theorem sq_elem_zero (f t : ℝ) (h : Real.sin (2 * Real.pi * f * t) = 0) :
    waveFun "square" f t = 0 := by
  unfold waveFun
  rw [if_neg (by decide), if_pos rfl, h, np_sign_zero]

theorem linspace_3_eval : linspace ((3 : ℝ)/44100) 3 = [0, 1/29400, 1/14700] := by
  unfold linspace
  rw [if_neg (by norm_num)]
  rw [show List.range 3 = [0, 1, 2] from rfl]
  simp only [List.map_cons, List.map_nil]
  norm_num

theorem rawWave_sq (s : Synth) (hw : s.waveform = "square") (hf : s.frequency = 3675) :
    rawWave s ((3 : ℝ)/44100) = [0, 1, 1] := by
  unfold rawWave baseWave
  rw [hw, hf, numSamples_3f, show ((3 : ℤ)).toNat = 3 from rfl, linspace_3_eval]
  simp only [List.map_cons, List.map_nil]
  rw [sq_elem_zero 3675 0 (by rw [show 2 * Real.pi * 3675 * (0:ℝ) = 0 by ring]; exact Real.sin_zero),
    sq_elem_pos 3675 (1/29400) (by
      rw [show 2 * Real.pi * 3675 * ((1:ℝ)/29400) = Real.pi/4 by ring, Real.sin_pi_div_four]
      positivity),
    sq_elem_pos 3675 (1/14700) (by
      rw [show 2 * Real.pi * 3675 * ((1:ℝ)/14700) = Real.pi/2 by ring, Real.sin_pi_div_two]
      norm_num)]

theorem monoFloat_sq : monoFloat sqDelaySynth ((3 : ℝ)/44100) = [0, 1, 1] := by
  unfold monoFloat afterBitCrush afterDistortion
  rw [if_neg (by simp [sqDelaySynth, Synth.init]), if_neg (by simp [sqDelaySynth, Synth.init]),
    if_neg (by simp [sqDelaySynth, Synth.init]), rawWave_sq sqDelaySynth rfl rfl,
    show sqDelaySynth.volume = 1 from rfl]
  simp only [List.map_cons, List.map_nil]
  norm_num

theorem astype_one_scaled : astype_int16 ((1 : ℝ) * 32767) = 32767 := by
  unfold astype_int16
  rw [show (1 : ℝ) * 32767 = ((32767 : ℤ) : ℝ) by norm_num, pyTrunc_intCast]
  exact wrap16_eq_self _ (by norm_num) (by norm_num)

theorem wave16_sq : wave16 sqDelaySynth ((3 : ℝ)/44100) = [0, 32767, 32767] := by
  unfold wave16
  rw [monoFloat_sq]
  simp only [List.map_cons, List.map_nil]
  rw [show (0 : ℝ) * 32767 = 0 by norm_num, astype_int16_zero, astype_one_scaled]

theorem stereo16_sq :
    stereo16 sqDelaySynth ((3 : ℝ)/44100) = [(0, 0), (32767, 32767), (32767, 32767)] := by
  unfold stereo16
  rw [wave16_sq]
  rfl

theorem delaySamples_sq : delaySamples sqDelaySynth = 1 := by
  unfold delaySamples SAMPLE_RATE
  rw [show sqDelaySynth.delay_time = 1/44100 from rfl,
    show (44100 : ℝ) * (1/44100) = ((1 : ℤ) : ℝ) by norm_num, pyTrunc_intCast]

theorem delayedCopy_sq :
    delayedCopy sqDelaySynth ((3 : ℝ)/44100) = [(0, 0), (0, 0), (32767, 32767)] := by
  rw [delayedCopy_eq _ _ (by rw [delaySamples_sq]; norm_num)
      (by rw [delaySamples_sq, stereo16_sq]; norm_num),
    delaySamples_sq, stereo16_sq]
  rfl

theorem scaleHalf_sq :
    scaleHalf [((0 : ℤ), (0 : ℤ)), (0, 0), (32767, 32767)] =
      [(0, 0), (0, 0), (16383, 16383)] := by
  unfold scaleHalf
  simp only [List.map_cons, List.map_nil]
  have h0 : astype_int16 (((0 : ℤ) : ℝ) * 0.5) = 0 := by
    rw [show ((0 : ℤ) : ℝ) * 0.5 = 0 by norm_num]
    exact astype_int16_zero
  have h1 : astype_int16 (((32767 : ℤ) : ℝ) * 0.5) = 16383 := by
    unfold astype_int16
    rw [pyTrunc_eval _ 16383 (by positivity) (by push_cast; norm_num) (by push_cast; norm_num)]
    exact wrap16_eq_self _ (by norm_num) (by norm_num)
  rw [h0, h1]

theorem applyDelay_sq :
    applyDelay sqDelaySynth ((3 : ℝ)/44100) =
      [(0, 0), (32767, 32767), (-16386, -16386)] := by
  unfold applyDelay
  rw [if_pos ⟨rfl, by rw [delaySamples_sq, stereo16_sq]; norm_num⟩]
  rw [stereo16_sq, delayedCopy_sq, scaleHalf_sq]
  unfold addWrap
  simp only [List.zipWith_cons_cons, List.zipWith_nil_right]
  norm_num [wrap16]

theorem previewPoints_sq :
    previewPoints sqDelaySynth ((3 : ℝ)/44100) = [0, 32767, 32767] := by
  rw [previewPoints_eq_take, wave16_sq]
  rfl

theorem generate_sample_sq :
    generate_sample sqDelaySynth ((3 : ℝ)/44100) =
      .ok ({ sqDelaySynth with wave_points := [0, 32767, 32767] },
        [(0, 0), (32767, 32767), (-16386, -16386)]) := by
  rw [generate_sample_ok _ _ (by rw [numSamples_3f]; norm_num)
    (by simp [sqDelaySynth, Synth.init]), previewPoints_sq, applyDelay_sq]

theorem monoFloat_sqq :
    monoFloat sqDelaySynthQuiet ((3 : ℝ)/44100) = [0, 1/32767, 1/32767] := by
  unfold monoFloat afterBitCrush afterDistortion
  rw [if_neg (by simp [sqDelaySynthQuiet, sqDelaySynth, Synth.init]),
    if_neg (by simp [sqDelaySynthQuiet, sqDelaySynth, Synth.init]),
    if_neg (by simp [sqDelaySynthQuiet, sqDelaySynth, Synth.init]),
    rawWave_sq sqDelaySynthQuiet rfl rfl,
    show sqDelaySynthQuiet.volume = 1/32767 from rfl]
  simp only [List.map_cons, List.map_nil]
  norm_num

theorem astype_int16_one : astype_int16 (1 : ℝ) = 1 := by
  unfold astype_int16
  rw [show (1 : ℝ) = ((1 : ℤ) : ℝ) by norm_num, pyTrunc_intCast]
  exact wrap16_eq_self _ (by norm_num) (by norm_num)

theorem wave16_sqq : wave16 sqDelaySynthQuiet ((3 : ℝ)/44100) = [0, 1, 1] := by
  unfold wave16
  rw [monoFloat_sqq]
  simp only [List.map_cons, List.map_nil]
  rw [show (0 : ℝ) * 32767 = 0 by norm_num, astype_int16_zero,
    show (1 : ℝ)/32767 * 32767 = 1 by norm_num, astype_int16_one]

theorem stereo16_sqq :
    stereo16 sqDelaySynthQuiet ((3 : ℝ)/44100) = [(0, 0), (1, 1), (1, 1)] := by
  unfold stereo16
  rw [wave16_sqq]
  rfl

theorem delaySamples_sqq : delaySamples sqDelaySynthQuiet = 1 := by
  unfold delaySamples SAMPLE_RATE
  rw [show sqDelaySynthQuiet.delay_time = 1/44100 from rfl,
    show (44100 : ℝ) * (1/44100) = ((1 : ℤ) : ℝ) by norm_num, pyTrunc_intCast]

theorem delayedCopy_sqq :
    delayedCopy sqDelaySynthQuiet ((3 : ℝ)/44100) = [(0, 0), (0, 0), (1, 1)] := by
  rw [delayedCopy_eq _ _ (by rw [delaySamples_sqq]; norm_num)
      (by rw [delaySamples_sqq, stereo16_sqq]; norm_num),
    delaySamples_sqq, stereo16_sqq]
  rfl

theorem scaleHalf_sqq :
    scaleHalf [((0 : ℤ), (0 : ℤ)), (0, 0), (1, 1)] = [(0, 0), (0, 0), (0, 0)] := by
  unfold scaleHalf
  simp only [List.map_cons, List.map_nil]
  have h0 : astype_int16 (((0 : ℤ) : ℝ) * 0.5) = 0 := by
    rw [show ((0 : ℤ) : ℝ) * 0.5 = 0 by norm_num]
    exact astype_int16_zero
  have h1 : astype_int16 (((1 : ℤ) : ℝ) * 0.5) = 0 := by
    unfold astype_int16
    rw [pyTrunc_eval _ 0 (by positivity) (by push_cast; norm_num) (by push_cast; norm_num)]
    exact wrap16_eq_self _ (by norm_num) (by norm_num)
  rw [h0, h1]

theorem applyDelay_sqq :
    applyDelay sqDelaySynthQuiet ((3 : ℝ)/44100) = [(0, 0), (1, 1), (1, 1)] := by
  unfold applyDelay
  rw [if_pos ⟨rfl, by rw [delaySamples_sqq, stereo16_sqq]; norm_num⟩]
  rw [stereo16_sqq, delayedCopy_sqq, scaleHalf_sqq]
  unfold addWrap
  simp only [List.zipWith_cons_cons, List.zipWith_nil_right]
  norm_num [wrap16]

theorem previewPoints_sqq :
    previewPoints sqDelaySynthQuiet ((3 : ℝ)/44100) = [0, 1, 1] := by
  rw [previewPoints_eq_take, wave16_sqq]
  rfl

theorem generate_sample_sqq :
    generate_sample sqDelaySynthQuiet ((3 : ℝ)/44100) =
      .ok ({ sqDelaySynthQuiet with wave_points := [0, 1, 1] },
        [(0, 0), (1, 1), (1, 1)]) := by
  rw [generate_sample_ok _ _ (by rw [numSamples_3f]; norm_num)
    (by simp [sqDelaySynthQuiet, sqDelaySynth, Synth.init]), previewPoints_sqq, applyDelay_sqq]

/-! Evaluation of the default state on a buffer of a single sample. -/

theorem rawWave_init : rawWave Synth.init ((3 : ℝ)/88200) = [0] := by
  unfold rawWave baseWave
  rw [show Synth.init.waveform = "sine" from rfl, show Synth.init.frequency = (440 : ℝ) from rfl,
    numSamples_halfframe, show ((1 : ℤ)).toNat = 1 from rfl]
  unfold linspace
  rw [if_pos (le_refl 1)]
  simp only [List.replicate, List.map_cons, List.map_nil]
  unfold waveFun
  rw [if_pos rfl, show 2 * Real.pi * (440 : ℝ) * (0 : ℝ) = 0 by ring,
    Real.sin_zero]

theorem monoFloat_init : monoFloat Synth.init ((3 : ℝ)/88200) = [0] := by
  unfold monoFloat afterBitCrush afterDistortion
  rw [if_neg (by simp [Synth.init]), if_pos (by simp [Synth.init]),
    if_neg (by simp [Synth.init]), rawWave_init]
  unfold applyBitCrush
  simp only [List.map_cons, List.map_nil]
  rw [show (0 : ℝ) * 2 ^ Synth.init.bit_crush_factor = 0 by ring, np_round_zero]
  norm_num

theorem wave16_init : wave16 Synth.init ((3 : ℝ)/88200) = [0] := by
  unfold wave16
  rw [monoFloat_init]
  simp only [List.map_cons, List.map_nil]
  rw [show (0 : ℝ) * 32767 = 0 by norm_num, astype_int16_zero]

theorem applyDelay_init : applyDelay Synth.init ((3 : ℝ)/88200) = [(0, 0)] := by
  unfold applyDelay
  rw [if_neg (by simp [Synth.init])]
  unfold stereo16
  rw [wave16_init]
  rfl

theorem previewPoints_init : previewPoints Synth.init ((3 : ℝ)/88200) = [0] := by
  rw [previewPoints_eq_take, wave16_init]
  rfl

theorem generate_sample_init :
    generate_sample Synth.init ((3 : ℝ)/88200) =
      .ok ({ Synth.init with wave_points := [0] }, [(0, 0)]) := by
  rw [generate_sample_ok _ _ (by rw [numSamples_halfframe]; norm_num)
    (by simp [Synth.init]), previewPoints_init, applyDelay_init]

/-! Evaluation of the sawtooth state on a two-sample buffer. -/

theorem saw_elem (f t : ℝ) (n : ℤ) (h : ⌊(0.5 : ℝ) + t * f⌋ = n) :
    waveFun "sawtooth" f t = 2 * (t * f - (n : ℝ)) := by
  unfold waveFun
  rw [if_neg (by decide), if_neg (by decide), if_pos rfl, h]

theorem linspace_2_eval : linspace ((2 : ℝ)/44100) 2 = [0, 1/22050] := by
  unfold linspace
  rw [if_neg (by norm_num)]
  rw [show List.range 2 = [0, 1] from rfl]
  simp only [List.map_cons, List.map_nil]
  norm_num

theorem rawWave_saw : rawWave sawSynth ((2 : ℝ)/44100) = [0, -1] := by
  have e0 : waveFun "sawtooth" 11025 0 = 0 := by
    have hf : ⌊(0.5 : ℝ) + 0 * 11025⌋ = (0 : ℤ) := by
      rw [Int.floor_eq_iff]
      norm_num
    rw [saw_elem 11025 0 0 hf]
    norm_num
  have e1 : waveFun "sawtooth" 11025 ((1 : ℝ)/22050) = -1 := by
    have hf : ⌊(0.5 : ℝ) + 1/22050 * 11025⌋ = (1 : ℤ) := by
      rw [Int.floor_eq_iff]
      norm_num
    rw [saw_elem 11025 (1/22050) 1 hf]
    norm_num
  unfold rawWave baseWave
  rw [show sawSynth.waveform = "sawtooth" from rfl,
    show sawSynth.frequency = (11025 : ℝ) from rfl,
    numSamples_2f, show ((2 : ℤ)).toNat = 2 from rfl, linspace_2_eval]
  simp only [List.map_cons, List.map_nil]
  rw [e0, e1]

theorem waveFun_eq_spec (w : String) (f t : ℝ) :
    waveFun w f t = specWaveFormula w (f * t) := by
  unfold waveFun specWaveFormula
  rw [mul_assoc (2 * Real.pi) f t, mul_comm t f]

theorem linspace_getD (stop : ℝ) (num : ℕ) (h2 : 2 ≤ num) (i : ℕ) (hi : i < num) :
    (linspace stop num).getD i 0 = stop * (i : ℝ) / ((num : ℝ) - 1) := by
  unfold linspace
  rw [if_neg (by omega)]
  rw [getD_of_map _ _ _ (by simpa using hi) 0]
  rw [List.getD_eq_getElem _ _ (by simpa using hi), List.getElem_range]

/-! The ten claims. -/

/-- C1 (amended): for every frequency > 0, duration > 0 and any volume,
whenever `generate_sample` returns, the buffer has exactly
`int(sampleRate * duration)` stereo frames — Python truncation, not
`round` — and every sample lies in [-32768, 32767] because every
conversion and sum is reduced into the 16-bit range by wrapping modulo
2^16; the volume is used unclamped and cannot violate the range bound. -/
theorem C1_buffer_frames_and_range (s : Synth) (L : ℝ)
    (hF : 0 < s.frequency) (hL : 0 < L) (out : Synth × List (ℤ × ℤ))
    (h : generate_sample s L = Except.ok out) :
    out.2.length = (numSamples L).toNat ∧
      ∀ p ∈ out.2, (-32768 ≤ p.1 ∧ p.1 ≤ 32767) ∧ (-32768 ≤ p.2 ∧ p.2 ≤ 32767) := by
  rw [generate_sample_ok_inv s L out h]
  exact ⟨applyDelay_length s L, applyDelay_bounds s L⟩

/-- C1 witness: the amended claim at the default state (440 Hz > 0) and
duration 3/88200 > 0 (a 1.5-sample request, truncated to one frame). -/
theorem C1_witness :
    (0 : ℝ) < Synth.init.frequency ∧ (0 : ℝ) < 3/88200 ∧
      (({ Synth.init with wave_points := [0] }, [((0 : ℤ), (0 : ℤ))]) :
          Synth × List (ℤ × ℤ)).2.length = (numSamples ((3 : ℝ)/88200)).toNat ∧
      ∀ p ∈ (({ Synth.init with wave_points := [0] }, [((0 : ℤ), (0 : ℤ))]) :
          Synth × List (ℤ × ℤ)).2,
        (-32768 ≤ p.1 ∧ p.1 ≤ 32767) ∧ (-32768 ≤ p.2 ∧ p.2 ≤ 32767) := by
  have hF : (0 : ℝ) < Synth.init.frequency := by
    rw [show Synth.init.frequency = (440 : ℝ) from rfl]
    norm_num
  have h := C1_buffer_frames_and_range Synth.init (3/88200) hF (by norm_num) _
    generate_sample_init
  exact ⟨hF, by norm_num, h.1, h.2⟩

/-- C1 counterexample: at frequency 440 > 0 and duration 3/88200 > 0 the
buffer has `int(44100 * 3/88200) = 1` frame, while the claim demands
`round(44100 * 3/88200) = 2` frames. -/
theorem C1_counterexample :
    (0 : ℝ) < Synth.init.frequency ∧ (0 : ℝ) < 3/88200 ∧
      (generate_sample Synth.init ((3 : ℝ)/88200)).map (fun p => p.2.length) =
        Except.ok 1 ∧
      round (SAMPLE_RATE * ((3 : ℝ)/88200)) = 2 ∧ (1 : ℕ) ≠ 2 := by
  refine ⟨?_, by norm_num, ?_, ?_, by norm_num⟩
  · rw [show Synth.init.frequency = (440 : ℝ) from rfl]
    norm_num
  · rw [generate_sample_init]
    rfl
  · unfold SAMPLE_RATE
    rw [show (44100 : ℝ) * (3/88200) = 3/2 by norm_num, round_eq,
      show (3 : ℝ)/2 + 1/2 = ((2 : ℤ) : ℝ) by norm_num, Int.floor_intCast]

/-- C2 (amended): when the delay effect is enabled and the buffer is longer
than `delay_samples`, the 0.5-gain mix is numpy int16 addition, which wraps
modulo 2^16 on overflow rather than clipping/saturating: every output frame
is `wrap16` of the primary sample plus the truncated half-scaled delayed
sample. -/
theorem C2_delay_mix_wraps (s : Synth) (L : ℝ) (hd : s.effects.delay = true)
    (hlt : delaySamples s < ((stereo16 s L).length : ℤ)) (i : ℕ)
    (hi : i < (stereo16 s L).length) :
    (applyDelay s L).getD i (0, 0) =
      (wrap16 (((stereo16 s L).getD i (0, 0)).1 +
         ((scaleHalf (delayedCopy s L)).getD i (0, 0)).1),
       wrap16 (((stereo16 s L).getD i (0, 0)).2 +
         ((scaleHalf (delayedCopy s L)).getD i (0, 0)).2)) :=
  applyDelay_getD s L hd hlt i hi

/-- C2 witness: the amended claim at the square-wave delay state, frame 2. -/
theorem C2_witness :
    sqDelaySynth.effects.delay = true ∧
      delaySamples sqDelaySynth < ((stereo16 sqDelaySynth ((3 : ℝ)/44100)).length : ℤ) ∧
      2 < (stereo16 sqDelaySynth ((3 : ℝ)/44100)).length ∧
      (applyDelay sqDelaySynth ((3 : ℝ)/44100)).getD 2 (0, 0) =
        (wrap16 (((stereo16 sqDelaySynth ((3 : ℝ)/44100)).getD 2 (0, 0)).1 +
           ((scaleHalf (delayedCopy sqDelaySynth ((3 : ℝ)/44100))).getD 2 (0, 0)).1),
         wrap16 (((stereo16 sqDelaySynth ((3 : ℝ)/44100)).getD 2 (0, 0)).2 +
           ((scaleHalf (delayedCopy sqDelaySynth ((3 : ℝ)/44100))).getD 2 (0, 0)).2)) := by
  have hlt : delaySamples sqDelaySynth < ((stereo16 sqDelaySynth ((3 : ℝ)/44100)).length : ℤ) := by
    rw [delaySamples_sq, stereo16_sq]
    norm_num
  have hi : 2 < (stereo16 sqDelaySynth ((3 : ℝ)/44100)).length := by
    rw [stereo16_sq]
    norm_num
  exact ⟨rfl, hlt, hi, C2_delay_mix_wraps sqDelaySynth (3/44100) rfl hlt 2 hi⟩

/-- C2 counterexample: square wave at 3675 Hz, delay of one sample: frame 2
sums 32767 + 16383 = 49150 > 32767, and the stored sample is the wrapped
value -16386 = 49150 - 2^16 — the output wraps modulo 2^16. -/
theorem C2_counterexample :
    (generate_sample sqDelaySynth ((3 : ℝ)/44100)).map (fun p => p.2.map Prod.fst) =
      Except.ok [0, 32767, -16386] ∧
    (stereo16 sqDelaySynth ((3 : ℝ)/44100)).map Prod.fst = [0, 32767, 32767] ∧
    scaleHalf (delayedCopy sqDelaySynth ((3 : ℝ)/44100)) =
      [(0, 0), (0, 0), (16383, 16383)] ∧
    (32767 + 16383 : ℤ) = 49150 ∧ (-16386 : ℤ) = 49150 - 65536 ∧ (32767 : ℤ) < 49150 := by
  refine ⟨?_, ?_, ?_, by norm_num, by norm_num, by norm_num⟩
  · rw [generate_sample_sq]
    rfl
  · rw [stereo16_sq]
    rfl
  · rw [delayedCopy_sq, scaleHalf_sq]

/-- C3 (amended): with delay enabled, `delaySamples = int(sampleRate *
delay_time)` nonnegative and the buffer longer than it: the delayed copy is
copy-and-zero-prefix (leading frames zeroed, tail discarded, no rotation
wrap); output frames before `delaySamples` equal the original frames; and
every frame `i ≥ delaySamples` equals `wrap16(original[i] +
trunc(0.5 * original[i - delaySamples]))` — the half-gain term truncated
toward zero and the sum wrapped into 16 bits, not the exact real sum. -/
theorem C3_delay_shift (s : Synth) (L : ℝ) (hd : s.effects.delay = true)
    (h0 : 0 ≤ delaySamples s)
    (hlt : delaySamples s < ((stereo16 s L).length : ℤ)) :
    delayedCopy s L =
      List.replicate (delaySamples s).toNat (0, 0) ++
        (stereo16 s L).take ((stereo16 s L).length - (delaySamples s).toNat) ∧
    (∀ i, i < (delaySamples s).toNat →
      (applyDelay s L).getD i (0, 0) = (stereo16 s L).getD i (0, 0)) ∧
    (∀ i, (delaySamples s).toNat ≤ i → i < (stereo16 s L).length →
      (applyDelay s L).getD i (0, 0) =
        (wrap16 (((stereo16 s L).getD i (0, 0)).1 +
           astype_int16 ((((stereo16 s L).getD (i - (delaySamples s).toNat) (0, 0)).1 : ℝ) * 0.5)),
         wrap16 (((stereo16 s L).getD i (0, 0)).2 +
           astype_int16 ((((stereo16 s L).getD (i - (delaySamples s).toNat) (0, 0)).2 : ℝ) * 0.5)))) := by
  refine ⟨delayedCopy_eq s L h0 hlt, ?_, ?_⟩
  · intro i hi
    have hiN : i < (stereo16 s L).length := by omega
    rw [applyDelay_getD s L hd hlt i hiN,
      scaleHalf_getD _ i (by rw [delayedCopy_length]; exact hiN),
      delayedCopy_getD_lt s L h0 hlt i hi]
    have hz : astype_int16 (((0 : ℤ) : ℝ) * 0.5) = 0 := by
      rw [show ((0 : ℤ) : ℝ) * 0.5 = 0 by norm_num]
      exact astype_int16_zero
    have hb := getD_mem_prop (stereo16 s L) _ (stereo16_bounds s L) i hiN (0, 0)
    rw [show ((((0 : ℤ), (0 : ℤ))).1 : ℝ) = ((0 : ℤ) : ℝ) from rfl]
    rw [show ((((0 : ℤ), (0 : ℤ))).2 : ℝ) = ((0 : ℤ) : ℝ) from rfl]
    rw [hz, add_zero, add_zero, wrap16_eq_self _ hb.1.1 hb.1.2,
      wrap16_eq_self _ hb.2.1 hb.2.2]
  · intro i hge hiN
    rw [applyDelay_getD s L hd hlt i hiN,
      scaleHalf_getD _ i (by rw [delayedCopy_length]; exact hiN),
      delayedCopy_getD_ge s L h0 hlt i hge hiN]

/-- C3 witness: the amended claim at the quiet square-wave delay state,
with the prefix clause at frame 0 and the shifted clause at frame 2. -/
theorem C3_witness :
    sqDelaySynthQuiet.effects.delay = true ∧
    (0 : ℤ) ≤ delaySamples sqDelaySynthQuiet ∧
    delaySamples sqDelaySynthQuiet <
      ((stereo16 sqDelaySynthQuiet ((3 : ℝ)/44100)).length : ℤ) ∧
    0 < (delaySamples sqDelaySynthQuiet).toNat ∧
    (delaySamples sqDelaySynthQuiet).toNat ≤ 2 ∧
    2 < (stereo16 sqDelaySynthQuiet ((3 : ℝ)/44100)).length ∧
    (applyDelay sqDelaySynthQuiet ((3 : ℝ)/44100)).getD 0 (0, 0) =
      (stereo16 sqDelaySynthQuiet ((3 : ℝ)/44100)).getD 0 (0, 0) ∧
    (applyDelay sqDelaySynthQuiet ((3 : ℝ)/44100)).getD 2 (0, 0) =
      (wrap16 (((stereo16 sqDelaySynthQuiet ((3 : ℝ)/44100)).getD 2 (0, 0)).1 +
         astype_int16 ((((stereo16 sqDelaySynthQuiet ((3 : ℝ)/44100)).getD
           (2 - (delaySamples sqDelaySynthQuiet).toNat) (0, 0)).1 : ℝ) * 0.5)),
       wrap16 (((stereo16 sqDelaySynthQuiet ((3 : ℝ)/44100)).getD 2 (0, 0)).2 +
         astype_int16 ((((stereo16 sqDelaySynthQuiet ((3 : ℝ)/44100)).getD
           (2 - (delaySamples sqDelaySynthQuiet).toNat) (0, 0)).2 : ℝ) * 0.5))) := by
  have h0 : (0 : ℤ) ≤ delaySamples sqDelaySynthQuiet := by
    rw [delaySamples_sqq]
    norm_num
  have hlt : delaySamples sqDelaySynthQuiet <
      ((stereo16 sqDelaySynthQuiet ((3 : ℝ)/44100)).length : ℤ) := by
    rw [delaySamples_sqq, stereo16_sqq]
    norm_num
  have main := C3_delay_shift sqDelaySynthQuiet (3/44100) rfl h0 hlt
  refine ⟨rfl, h0, hlt, by rw [delaySamples_sqq]; norm_num, by rw [delaySamples_sqq]; norm_num,
    by rw [stereo16_sqq]; norm_num, main.2.1 0 (by rw [delaySamples_sqq]; norm_num),
    main.2.2 2 (by rw [delaySamples_sqq]; norm_num) (by rw [stereo16_sqq]; norm_num)⟩

/-- C3 counterexample: quiet square input with original 16-bit frames
[0, 1, 1] and delaySamples = 1: output frame 2 is 1, but
original[2] + 0.5 * original[1] = 1.5 — the claim's exact-sum clause fails
(the 0.5-gain term is truncated toward zero). -/
theorem C3_counterexample :
    (generate_sample sqDelaySynthQuiet ((3 : ℝ)/44100)).map (fun p => p.2.map Prod.fst) =
      Except.ok [0, 1, 1] ∧
    (stereo16 sqDelaySynthQuiet ((3 : ℝ)/44100)).map Prod.fst = [0, 1, 1] ∧
    delaySamples sqDelaySynthQuiet = 1 ∧
    ¬ ((1 : ℝ) = 1 + 0.5 * 1) := by
  refine ⟨?_, ?_, delaySamples_sqq, by norm_num⟩
  · rw [generate_sample_sqq]
    rfl
  · rw [stereo16_sqq]
    rfl

/-- C4 (amended): `generate_sample` performs no parameter validation: it
never inspects the frequency at all, and it succeeds exactly when the
sample count `int(sampleRate * duration)` is nonnegative and the low-pass
stage is not run on an empty buffer; there is no InvalidParameter
rejection. -/
theorem C4_no_validation (s : Synth) (L : ℝ) :
    isOkE (generate_sample s L) = true ↔
      0 ≤ numSamples L ∧ ¬ (s.effects.low_pass = true ∧ (numSamples L).toNat = 0) :=
  isOkE_generate_sample s L

/-- C4 witness: the amended claim applied at the default state and one
second of audio. -/
theorem C4_witness : isOkE (generate_sample Synth.init 1) = true :=
  (C4_no_validation Synth.init 1).mpr
    ⟨by rw [numSamples_one]; norm_num, by simp [Synth.init]⟩

/-- C4 counterexample: frequency -440 ≤ 0 with duration 2/44100 > 0, and
`generate_sample` succeeds with a 2-frame buffer instead of failing with
an InvalidParameter error. -/
theorem C4_counterexample :
    negSynth.frequency ≤ 0 ∧ (0 : ℝ) < 2/44100 ∧
      (generate_sample negSynth ((2 : ℝ)/44100)).map (fun p => p.2.length) =
        Except.ok 2 := by
  refine ⟨?_, by norm_num, ?_⟩
  · rw [show negSynth.frequency = (-440 : ℝ) from rfl]
    norm_num
  · rw [generate_sample_ok _ _ (by rw [numSamples_2f]; norm_num)
      (by simp [negSynth, Synth.init])]
    simp only [Except.map]
    rw [applyDelay_length, numSamples_2f]
    rfl

/-- C5 (amended): the base waveform is evaluated with exactly the stated
per-kind formulas at phase phi_i = frequency * t_i, but on numpy's
linspace grid t_i = i * duration / (N - 1) with
N = int(sampleRate * duration) (for N ≥ 2), not on the claimed grid
t_i = i / sampleRate. -/
theorem C5_waveform_grid (s : Synth) (L : ℝ) (i : ℕ)
    (hi : i < (numSamples L).toNat) (h2 : 2 ≤ (numSamples L).toNat) :
    (rawWave s L).getD i 0 =
      specWaveFormula s.waveform
        (s.frequency * ((i : ℝ) * L / (((numSamples L).toNat : ℝ) - 1))) := by
  unfold rawWave baseWave
  rw [getD_of_map _ _ _ (by rw [linspace_length]; exact hi) 0,
    linspace_getD L _ h2 i hi, waveFun_eq_spec]
  congr 1
  ring

/-- C5 witness: the amended claim at the default sine state, duration
2/44100 (two samples), sample index 1. -/
theorem C5_witness :
    1 < (numSamples ((2 : ℝ)/44100)).toNat ∧ 2 ≤ (numSamples ((2 : ℝ)/44100)).toNat ∧
      (rawWave Synth.init ((2 : ℝ)/44100)).getD 1 0 =
        specWaveFormula Synth.init.waveform
          (Synth.init.frequency *
            (((1 : ℕ) : ℝ) * ((2 : ℝ)/44100) / (((numSamples ((2 : ℝ)/44100)).toNat : ℝ) - 1))) := by
  have h1 : 1 < (numSamples ((2 : ℝ)/44100)).toNat := by
    rw [numSamples_2f]
    norm_num
  have h2 : 2 ≤ (numSamples ((2 : ℝ)/44100)).toNat := by
    rw [numSamples_2f]
    norm_num
  exact ⟨h1, h2, C5_waveform_grid Synth.init (2/44100) 1 h1 h2⟩

/-- C5 counterexample: sawtooth at 11025 Hz, duration 2/44100 (N = 2).
The code's second sample is -1 (its grid has t_1 = duration, phase 1/2),
while the claim's grid t_1 = 1/44100 gives phase 1/4 and value 1/2. -/
theorem C5_counterexample :
    (rawWave sawSynth ((2 : ℝ)/44100)).getD 1 0 = -1 ∧
    specWaveFormula "sawtooth" ((11025 : ℝ) * (1/44100)) = 1/2 ∧
    ((-1 : ℝ) ≠ 1/2) := by
  refine ⟨by rw [rawWave_saw]; rfl, ?_, by norm_num⟩
  unfold specWaveFormula
  rw [if_neg (by decide), if_neg (by decide), if_pos rfl]
  have hf : ⌊(0.5 : ℝ) + 11025 * (1/44100)⌋ = (0 : ℤ) := by
    rw [Int.floor_eq_iff]
    norm_num
  rw [hf]
  norm_num

/-- C6: the preview slice returned in `wave_points` is exactly the first
min(300, N) entries of the post-effects 16-bit mono sequence, using the
same conversion as the main buffer, taken before stereo duplication and
hence before the delay stage. -/
theorem C6_preview_slice (s : Synth) (L : ℝ) (out : Synth × List (ℤ × ℤ))
    (h : generate_sample s L = Except.ok out) :
    out.1.wave_points = (wave16 s L).take 300 ∧
      out.1.wave_points.length = min 300 (wave16 s L).length := by
  rw [generate_sample_ok_inv s L out h]
  constructor
  · exact previewPoints_eq_take s L
  · show (previewPoints s L).length = _
    rw [previewPoints_eq_take, List.length_take]

/-- C6 witness: the claim applied at the default state and a one-sample
render. -/
theorem C6_witness :
    (({ Synth.init with wave_points := [0] }, [((0 : ℤ), (0 : ℤ))]) :
        Synth × List (ℤ × ℤ)).1.wave_points =
      (wave16 Synth.init ((3 : ℝ)/88200)).take 300 ∧
    (({ Synth.init with wave_points := [0] }, [((0 : ℤ), (0 : ℤ))]) :
        Synth × List (ℤ × ℤ)).1.wave_points.length =
      min 300 (wave16 Synth.init ((3 : ℝ)/88200)).length :=
  C6_preview_slice Synth.init (3/88200) _ generate_sample_init

/-- C7: the mono pipeline is the sequential composition, in order:
optional distortion tanh(x * drive), then optional bit-crush
round(x * 2^bits)/2^bits, then optional low-pass, then volume scaling;
the low-pass output satisfies y_0 = x_0 and
y_i = 0.1 * x_i + (1 - 0.1) * y_{i-1}; and the defaults are drive 2.0 and
4 bits. -/
theorem C7_pipeline (s : Synth) (L : ℝ) :
    monoFloat s L =
      ((if s.effects.low_pass = true then applyLowPass else id)
        ((if s.effects.bit_crush = true then
            List.map (fun x =>
              ((np_round (x * 2 ^ s.bit_crush_factor) : ℤ) : ℝ) / 2 ^ s.bit_crush_factor)
          else id)
          ((if s.effects.distortion = true then
              List.map (fun x => Real.tanh (x * s.distortion_amount))
            else id)
            (rawWave s L)))).map (fun x => x * s.volume) ∧
    (∀ x : List ℝ, (applyLowPass x).length = x.length ∧
      (x ≠ [] → (applyLowPass x).getD 0 0 = x.getD 0 0) ∧
      (∀ i, 1 ≤ i → i < x.length →
        (applyLowPass x).getD i 0 =
          0.1 * x.getD i 0 + (1 - 0.1) * (applyLowPass x).getD (i - 1) 0)) ∧
    Synth.init.distortion_amount = 2 ∧ Synth.init.bit_crush_factor = 4 := by
  refine ⟨?_, ?_, by norm_num [Synth.init], rfl⟩
  · unfold monoFloat afterBitCrush afterDistortion applyBitCrush applyDistortion
    cases hd : s.effects.distortion <;> cases hb : s.effects.bit_crush <;>
      cases hl : s.effects.low_pass <;> simp [hd, hb, hl]
  · intro x
    exact ⟨applyLowPass_length x, applyLowPass_getD_zero x, applyLowPass_getD_rec x⟩

/-- C7 witness: the low-pass recurrence of the claim evaluated on the
two-sample list [1, 0] at index 1. -/
theorem C7_witness :
    (1 : ℕ) ≤ 1 ∧ 1 < ([(1 : ℝ), 0]).length ∧
      (applyLowPass [(1 : ℝ), 0]).getD 1 0 =
        0.1 * ([(1 : ℝ), 0]).getD 1 0 + (1 - 0.1) * (applyLowPass [(1 : ℝ), 0]).getD 0 0 := by
  refine ⟨le_refl 1, by norm_num, ?_⟩
  have h := ((C7_pipeline Synth.init 0).2.1 [(1 : ℝ), 0]).2.2 1 (le_refl 1) (by norm_num)
  simpa using h

/-- C8: add_note is a no-op when the recorder is idle (the state, including
the event list, is unchanged); when recording it appends exactly one event
with offset round(now - startedAt, 2); folding any call sequence appends
events in call order with those offsets; and non-decreasing clock readings
yield non-decreasing offsets (ties keep arrival order, as events are only
ever appended). -/
theorem C8_add_note_spec :
    (∀ (r : Recorder) (now : ℚ) (n : String) (f : ℚ) (w : String),
      r.recording = false → add_note r now n f w = r) ∧
    (∀ (r : Recorder) (now : ℚ) (n : String) (f : ℚ) (w : String),
      r.recording = true →
        (add_note r now n f w).recorded_notes =
          r.recorded_notes ++
            [{ time := round2 (now - r.record_start_time), note := n, freq := f, wave := w }]) ∧
    (∀ (r : Recorder) (t0 : ℚ) (calls : List (ℚ × String × ℚ × String)),
      (runCalls (start_recording r t0) calls).recorded_notes =
        calls.map fun c =>
          { time := round2 (c.1 - t0), note := c.2.1, freq := c.2.2.1, wave := c.2.2.2 }) ∧
    (∀ (r : Recorder) (t0 : ℚ) (calls : List (ℚ × String × ℚ × String)),
      List.Chain' (· ≤ ·) (calls.map fun c => c.1) →
        List.Chain' (· ≤ ·)
          ((runCalls (start_recording r t0) calls).recorded_notes.map fun e => e.time)) := by
  have h3 : ∀ (r : Recorder) (t0 : ℚ) (calls : List (ℚ × String × ℚ × String)),
      (runCalls (start_recording r t0) calls).recorded_notes =
        calls.map fun c =>
          { time := round2 (c.1 - t0), note := c.2.1, freq := c.2.2.1,
            wave := c.2.2.2 : RecordedNote } := by
    intro r t0 calls
    rw [runCalls_notes calls _ rfl]
    simp [start_recording]
  refine ⟨?_, ?_, h3, ?_⟩
  · intro r now n f w h
    unfold add_note
    rw [if_neg (by rw [h]; simp)]
  · intro r now n f w h
    unfold add_note
    rw [if_pos h]
  · intro r t0 calls hm
    rw [h3 r t0 calls, List.map_map, List.chain'_map]
    rw [List.chain'_map] at hm
    exact hm.imp (fun a b hab => round2_mono _ _ (by linarith))

/-- C8 witness: the spec's example session — two notes at clock readings
0 and 0.5 after starting at 0 — has non-decreasing offsets. -/
theorem C8_witness :
    List.Chain' (· ≤ ·) (([((0 : ℚ), ("C", (26163/100 : ℚ), "sine")),
        ((1/2 : ℚ), ("E", (32963/100 : ℚ), "sine"))].map fun c => c.1)) ∧
    List.Chain' (· ≤ ·)
      ((runCalls (start_recording Recorder.init 0)
          [((0 : ℚ), ("C", (26163/100 : ℚ), "sine")),
           ((1/2 : ℚ), ("E", (32963/100 : ℚ), "sine"))]).recorded_notes.map
        fun e => e.time) := by
  have hm : List.Chain' (· ≤ ·) (([((0 : ℚ), ("C", (26163/100 : ℚ), "sine")),
      ((1/2 : ℚ), ("E", (32963/100 : ℚ), "sine"))].map fun c => c.1)) := by
    norm_num [List.chain'_cons]
  exact ⟨hm, C8_add_note_spec.2.2.2 Recorder.init 0 _ hm⟩

/-- C9: saving with an empty event list returns failure and writes no
document; otherwise the written document has total_notes equal to the
number of recorded events and carries the recorded events themselves in
order; and in both cases the recorder state — in particular its event
list — is returned unchanged. -/
theorem C9_save_spec (r : Recorder) (now : ℚ) (ts : String) :
    (save_recording r now ts).1 =
      (if r.recorded_notes.isEmpty then none
       else some
         { timestamp := ts, duration := round2 (now - r.record_start_time),
           total_notes := r.recorded_notes.length, notes := r.recorded_notes }) ∧
    (save_recording r now ts).2 = r := by
  unfold save_recording
  split <;> exact ⟨rfl, rfl⟩

/-- C10: generate_sample output (preview slice and buffer) depends only on
the listed synthesis state — frequency, waveform, volume, effect toggles
and effect parameters — and the duration: states agreeing on those fields
produce identical results regardless of playing/current_note/wave_points. -/
theorem C10_deterministic (s1 s2 : Synth) (L : ℝ)
    (h1 : s1.frequency = s2.frequency) (h2 : s1.waveform = s2.waveform)
    (h3 : s1.volume = s2.volume) (h4 : s1.effects = s2.effects)
    (h5 : s1.delay_time = s2.delay_time)
    (h6 : s1.distortion_amount = s2.distortion_amount)
    (h7 : s1.bit_crush_factor = s2.bit_crush_factor) :
    (generate_sample s1 L).map (fun p => (p.1.wave_points, p.2)) =
      (generate_sample s2 L).map (fun p => (p.1.wave_points, p.2)) := by
  cases s1 with
  | mk f1 w1 v1 p1 c1 wp1 e1 dt1 da1 bc1 =>
    cases s2 with
    | mk f2 w2 v2 p2 c2 wp2 e2 dt2 da2 bc2 =>
      change f1 = f2 at h1
      change w1 = w2 at h2
      change v1 = v2 at h3
      change e1 = e2 at h4
      change dt1 = dt2 at h5
      change da1 = da2 at h6
      change bc1 = bc2 at h7
      subst h1
      subst h2
      subst h3
      subst h4
      subst h5
      subst h6
      subst h7
      unfold generate_sample
      split
      · rfl
      · split
        · rfl
        · rfl

/-- C10 witness: states differing only in playing/current_note/wave_points
give the same preview slice and buffer. -/
theorem C10_witness :
    (generate_sample Synth.init ((3 : ℝ)/88200)).map (fun p => (p.1.wave_points, p.2)) =
      (generate_sample
        { Synth.init with
          playing := true
          current_note := some "A"
          wave_points := [5] } ((3 : ℝ)/88200)).map (fun p => (p.1.wave_points, p.2)) :=
  C10_deterministic _ _ _ rfl rfl rfl rfl rfl rfl rfl

end ChipTone
